import Mathlib

/-!
Verification development for the hydap-api routing core: the lazy
infinite-dimensional vector index (`pkg/vectors`), the agglomerator that
registers chains and routes transactions (`pkg/modules/agglomerator`),
the route scorer (`protocols.go`) and the P2P replication layer
(`p2p.go`).

Modelling conventions:
* Go `float64` arithmetic is modelled as exact real arithmetic (`ℝ`).
* Go maps (`map[string]T`) are modelled as association lists with an
  overwrite-on-conflict update; iteration order of a map is the order of
  the list, which is one admissible order for Go's unspecified ranging.
* Go panics (negative slice index, calling a nil generator) are modelled
  by `Option`-valued operations returning `none`.
* Mutation through pointers is modelled by explicit state passing.
-/

namespace Hydap

/-- Stand-in for Go metadata maps (`map[string]interface` with string
values at every use site the claims touch): an unordered string-keyed
association of string values. -/
abbrev MetadataMap := List (String × String)

/-- Embeds Go `vectors.InfiniteVector`: a cached sequence `elements`
plus a nilable `Generator` (Go a `func(int) float64` field, which may be
nil, hence `Option`). The mutex is a concurrency artefact and is not
modelled. -/
structure InfiniteVector where
  elements : List ℝ
  Generator : Option (ℤ → ℝ)

/-- Embeds Go `vectors.DatabaseRecord`. -/
structure DatabaseRecord where
  ID : String
  Metadata : MetadataMap
  Vector : InfiniteVector

/-- Embeds Go `vectors.InfiniteVectorIndex` (its three maps; the mutex is
not modelled). -/
structure InfiniteVectorIndex where
  vectorSpace : List (String × InfiniteVector)
  dimensionGenerators : List (String × (ℤ → ℝ))
  metadataStore : List (String × MetadataMap)

/-- Go map assignment `m[k] = v`: replace the binding for `k` if present,
otherwise append it. -/
def mapUpdate {α : Type} (k : String) (v : α) : List (String × α) → List (String × α)
  | [] => [(k, v)]
  | (k', v') :: rest => if k' = k then (k, v) :: rest else (k', v') :: mapUpdate k v rest

/-- Go map read `m[k]` returning presence, as in `v, ok := m[k]`. -/
def mapLookup {α : Type} (k : String) : List (String × α) → Option α
  | [] => none
  | (k', v) :: rest => if k' = k then some v else mapLookup k rest

theorem mapLookup_mapUpdate_self {α : Type} (k : String) (v : α) (l : List (String × α)) :
    mapLookup k (mapUpdate k v l) = some v := by
  induction l with
  | nil => simp [mapUpdate, mapLookup]
  | cons hd tl ih =>
    obtain ⟨k', v'⟩ := hd
    by_cases h : k' = k
    · simp [mapUpdate, mapLookup, h]
    · simp [mapUpdate, mapLookup, h, ih]

theorem mapLookup_mapUpdate_ne {α : Type} {k k' : String} (h : k' ≠ k) (v : α)
    (l : List (String × α)) :
    mapLookup k' (mapUpdate k v l) = mapLookup k' l := by
  induction l with
  | nil => simp [mapUpdate, mapLookup, Ne.symm h]
  | cons hd tl ih =>
    obtain ⟨k0, v0⟩ := hd
    by_cases h0 : k0 = k
    · subst h0
      simp [mapUpdate, mapLookup, Ne.symm h]
    · simp only [mapUpdate, if_neg h0]
      by_cases h1 : k0 = k'
      · simp [mapLookup, h1]
      · simp [mapLookup, h1, ih]

theorem mem_keys_mapUpdate_ne {α : Type} {x k : String} (hx : x ≠ k) (v : α)
    (l : List (String × α)) :
    x ∈ (mapUpdate k v l).map Prod.fst ↔ x ∈ l.map Prod.fst := by
  induction l with
  | nil => simp [mapUpdate, hx]
  | cons hd tl ih =>
    obtain ⟨k0, v0⟩ := hd
    by_cases h0 : k0 = k
    · subst h0
      simp [mapUpdate, hx]
    · simp [mapUpdate, if_neg h0, ih]

theorem mem_keys_mapUpdate_self {α : Type} (k : String) (v : α) (l : List (String × α)) :
    k ∈ (mapUpdate k v l).map Prod.fst := by
  induction l with
  | nil => simp [mapUpdate]
  | cons hd tl ih =>
    obtain ⟨k0, v0⟩ := hd
    by_cases h0 : k0 = k
    · simp [mapUpdate, h0]
    · simp [mapUpdate, h0, ih]

theorem mapUpdate_keys_nodup {α : Type} (k : String) (v : α) {l : List (String × α)}
    (h : (l.map Prod.fst).Nodup) : ((mapUpdate k v l).map Prod.fst).Nodup := by
  induction l with
  | nil => simp [mapUpdate]
  | cons hd tl ih =>
    obtain ⟨k0, v0⟩ := hd
    simp only [List.map_cons, List.nodup_cons] at h
    by_cases h0 : k0 = k
    · subst h0
      simpa [mapUpdate] using h
    · have htl := ih h.2
      simp only [mapUpdate, if_neg h0, List.map_cons, List.nodup_cons]
      exact ⟨fun hmem => h.1 ((mem_keys_mapUpdate_ne h0 v tl).mp hmem), htl⟩

theorem mapUpdate_count_one {α : Type} (k : String) (v : α) {l : List (String × α)}
    (h : (l.map Prod.fst).Nodup) : ((mapUpdate k v l).map Prod.fst).count k = 1 :=
  List.count_eq_one_of_mem (mapUpdate_keys_nodup k v h) (mem_keys_mapUpdate_self k v l)

/-- The cache-extension loop of Go `InfiniteVector.GetElement`:
`for len(v.elements) <= dimension` append `Generator(len(v.elements))`.
When `dimension >= len` holds the loop body runs exactly
`dimension + 1 - len` times, which is the fuel passed here; each
iteration appends the generator applied to the current length. -/
def extendLoop (gen : ℤ → ℝ) (elements : List ℝ) : ℕ → List ℝ
  | 0 => elements
  | k + 1 => extendLoop gen (elements ++ [gen (elements.length : ℤ)]) k

theorem extendLoop_length (gen : ℤ → ℝ) (elements : List ℝ) (k : ℕ) :
    (extendLoop gen elements k).length = elements.length + k := by
  induction k generalizing elements with
  | zero => simp [extendLoop]
  | succ n ih => simp [extendLoop, ih]; omega

theorem extendLoop_take (gen : ℤ → ℝ) (elements : List ℝ) (k : ℕ) :
    (extendLoop gen elements k).take elements.length = elements := by
  induction k generalizing elements with
  | zero => simp [extendLoop]
  | succ n ih =>
    have h := ih (elements ++ [gen (elements.length : ℤ)])
    have hlen : elements.length ≤ (elements ++ [gen (elements.length : ℤ)]).length := by
      simp
    calc (extendLoop gen (elements ++ [gen (elements.length : ℤ)]) n).take elements.length
        = ((extendLoop gen (elements ++ [gen (elements.length : ℤ)]) n).take
            (elements ++ [gen (elements.length : ℤ)]).length).take elements.length := by
          rw [List.take_take, min_eq_left hlen]
      _ = (elements ++ [gen (elements.length : ℤ)]).take elements.length := by rw [h]
      _ = elements := by simp

/-- Embeds Go `InfiniteVector.GetElement`.  Returns the element together
with the vector's post-call state (the Go method mutates the receiver's
cache).  `none` models a panic: either the final
`return v.elements[dimension]` indexes out of bounds (negative
`dimension`), or the loop calls a nil `Generator`. -/
def getElement (v : InfiniteVector) (dimension : ℤ) : Option (ℝ × InfiniteVector) :=
  if (v.elements.length : ℤ) ≤ dimension then
    match v.Generator with
    | none => none
    | some g =>
      let es := extendLoop g v.elements (dimension + 1 - (v.elements.length : ℤ)).toNat
      if h : 0 ≤ dimension ∧ dimension.toNat < es.length then
        some (es.get ⟨dimension.toNat, h.2⟩, ⟨es, v.Generator⟩)
      else none
  else
    if h : 0 ≤ dimension ∧ dimension.toNat < v.elements.length then
      some (v.elements.get ⟨dimension.toNat, h.2⟩, v)
    else none

theorem getElement_length_mono {v : InfiniteVector} {d : ℤ} {x : ℝ} {v' : InfiniteVector}
    (h : getElement v d = some (x, v')) :
    v.elements.length ≤ v'.elements.length ∧ v'.elements.take v.elements.length = v.elements := by
  unfold getElement at h
  by_cases h1 : (v.elements.length : ℤ) ≤ d
  · rw [if_pos h1] at h
    cases hg : v.Generator with
    | none => rw [hg] at h; exact absurd h (by simp)
    | some g =>
      rw [hg] at h
      simp only at h
      by_cases h2 : 0 ≤ d ∧ d.toNat < (extendLoop g v.elements (d + 1 - (v.elements.length : ℤ)).toNat).length
      · rw [dif_pos h2] at h
        obtain ⟨-, hv'⟩ := Prod.mk.injEq .. ▸ Option.some.injEq .. ▸ h
        constructor
        · rw [← hv']
          simp [extendLoop_length]
        · rw [← hv']
          exact extendLoop_take g v.elements _
      · rw [dif_neg h2] at h; exact absurd h (by simp)
  · rw [if_neg h1] at h
    by_cases h2 : 0 ≤ d ∧ d.toNat < v.elements.length
    · rw [dif_pos h2] at h
      obtain ⟨-, hv'⟩ := Prod.mk.injEq .. ▸ Option.some.injEq .. ▸ h
      rw [← hv']
      simp
    · rw [dif_neg h2] at h; exact absurd h (by simp)

end Hydap

namespace Hydap

theorem getElement_stable {v : InfiniteVector} {d : ℤ} {x : ℝ} {v' : InfiniteVector}
    (h : getElement v d = some (x, v')) : getElement v' d = some (x, v') := by
  unfold getElement at h
  by_cases h1 : (v.elements.length : ℤ) ≤ d
  · rw [if_pos h1] at h
    cases hg : v.Generator with
    | none => rw [hg] at h; exact absurd h (by simp)
    | some g =>
      rw [hg] at h
      simp only at h
      by_cases h2 : 0 ≤ d ∧ d.toNat < (extendLoop g v.elements (d + 1 - (v.elements.length : ℤ)).toNat).length
      · rw [dif_pos h2] at h
        have hx := Option.some.inj h
        have hx1 := congrArg Prod.fst hx
        have hx2 := congrArg Prod.snd hx
        simp only at hx1 hx2
        subst hx2
        have hlen : (extendLoop g v.elements (d + 1 - (v.elements.length : ℤ)).toNat).length
            = v.elements.length + (d + 1 - (v.elements.length : ℤ)).toNat :=
          extendLoop_length g v.elements _
        have hd1 : d.toNat < (extendLoop g v.elements (d + 1 - (v.elements.length : ℤ)).toNat).length :=
          h2.2
        have hnotle : ¬ (((extendLoop g v.elements (d + 1 - (v.elements.length : ℤ)).toNat).length : ℤ) ≤ d) := by
          omega
        unfold getElement
        simp only
        rw [if_neg hnotle, dif_pos ⟨h2.1, hd1⟩]
        exact congrArg some (congrArg (fun z => (z, _)) hx1)
      · rw [dif_neg h2] at h; exact absurd h (by simp)
  · rw [if_neg h1] at h
    by_cases h2 : 0 ≤ d ∧ d.toNat < v.elements.length
    · rw [dif_pos h2] at h
      have hx := Option.some.inj h
      have hx1 := congrArg Prod.fst hx
      have hx2 := congrArg Prod.snd hx
      simp only at hx1 hx2
      subst hx2
      unfold getElement
      rw [if_neg h1, dif_pos h2]
      exact congrArg some (congrArg (fun z => (z, _)) hx1)
    · rw [dif_neg h2] at h; exact absurd h (by simp)

/-- C4: for a LazyVector with a pure generator (the model's generators
are pure functions) and a dimension `d ≥ 0`, a successful
`GetElement d` call is idempotent: calling again on the resulting
vector yields the identical value and leaves the cache unchanged; and a
call never shrinks the cache, nor changes any already-cached element
(the old cache stays a prefix of the new one). -/
theorem getElement_idempotent_cache_monotone
    (v : InfiniteVector) (d : ℤ) (x : ℝ) (v' : InfiniteVector)
    (hd : 0 ≤ d) (h : getElement v d = some (x, v')) :
    getElement v' d = some (x, v') ∧
    v.elements.length ≤ v'.elements.length ∧
    v'.elements.take v.elements.length = v.elements :=
  ⟨getElement_stable h, (getElement_length_mono h).1, (getElement_length_mono h).2⟩

/-- Concrete witness for C4: the empty-cache vector with the constant-0
generator, queried at dimension 0. -/
theorem getElement_idempotent_cache_monotone_witness :
    ((0 : ℤ) ≤ 0 ∧
      getElement ⟨[], some fun _ => (0 : ℝ)⟩ 0 = some (0, ⟨[0], some fun _ => (0 : ℝ)⟩)) ∧
    (getElement ⟨[(0 : ℝ)], some fun _ => (0 : ℝ)⟩ 0
        = some (0, ⟨[0], some fun _ => (0 : ℝ)⟩) ∧
      ([] : List ℝ).length ≤ [(0 : ℝ)].length ∧
      [(0 : ℝ)].take ([] : List ℝ).length = []) :=
  ⟨⟨le_refl 0, by simp [getElement, extendLoop]⟩,
    getElement_idempotent_cache_monotone ⟨[], some fun _ => (0 : ℝ)⟩ 0 0
      ⟨[0], some fun _ => (0 : ℝ)⟩ (le_refl 0) (by simp [getElement, extendLoop])⟩

end Hydap

namespace Hydap

/-- C8 counterexample: `GetElement` called with dimension `-1` on a
vector with an empty cache reaches `return v.elements[dimension]` with a
negative index, which panics in Go (modelled `none`): the claim that
every integer dimension, including negative ones, yields a value is
false. -/
theorem getElement_neg_dimension_aborts :
    getElement ⟨[], some fun _ => (0 : ℝ)⟩ (-1) = none := by
  simp [getElement]

/-- C8 amended: for every dimension `d ≥ 0` on a vector that carries a
generator, `GetElement` returns a value and all its index accesses stay
in bounds; only a negative dimension (or a nil generator needed for
extension) aborts. -/
theorem getElement_nonneg_total (v : InfiniteVector) (d : ℤ) (g : ℤ → ℝ)
    (hd : 0 ≤ d) (hg : v.Generator = some g) :
    ∃ x v', getElement v d = some (x, v') := by
  unfold getElement
  by_cases h1 : (v.elements.length : ℤ) ≤ d
  · rw [if_pos h1, hg]
    simp only
    have hlen : (extendLoop g v.elements (d + 1 - (v.elements.length : ℤ)).toNat).length
        = v.elements.length + (d + 1 - (v.elements.length : ℤ)).toNat :=
      extendLoop_length g v.elements _
    have h2 : 0 ≤ d ∧ d.toNat < (extendLoop g v.elements (d + 1 - (v.elements.length : ℤ)).toNat).length := by
      constructor
      · exact hd
      · omega
    rw [dif_pos h2]
    exact ⟨_, _, rfl⟩
  · rw [if_neg h1]
    have h2 : 0 ≤ d ∧ d.toNat < v.elements.length := by
      constructor
      · exact hd
      · omega
    rw [dif_pos h2]
    exact ⟨_, _, rfl⟩

/-- Concrete witness for the amended C8. -/
theorem getElement_nonneg_total_witness :
    ((0 : ℤ) ≤ 2 ∧ (⟨[], some fun _ => (0 : ℝ)⟩ : InfiniteVector).Generator = some fun _ => (0 : ℝ)) ∧
    (∃ x v', getElement ⟨[], some fun _ => (0 : ℝ)⟩ 2 = some (x, v')) :=
  ⟨⟨by norm_num, rfl⟩,
    getElement_nonneg_total ⟨[], some fun _ => (0 : ℝ)⟩ 2 (fun _ => (0 : ℝ)) (by norm_num) rfl⟩

end Hydap

namespace Hydap

/-- The default generator `Insert` assigns when `record.Vector.Generator`
is nil (Go: `math.Sin(float64(dim)) * math.Exp(-float64(dim)/10.0)`). -/
noncomputable def fallbackGenerator (dim : ℤ) : ℝ :=
  Real.sin (dim : ℝ) * Real.exp (-(dim : ℝ) / 10)

/-- The generator assignment performed at the top of Go
`InfiniteVectorIndex.Insert`: the fallback is installed exactly when the
record's vector carries no generator. -/
noncomputable def withFallback (v : InfiniteVector) : InfiniteVector :=
  match v.Generator with
  | none => { v with Generator := some fallbackGenerator }
  | some _ => v

theorem withFallback_generator (v : InfiniteVector) :
    withFallback v = ⟨v.elements, some (v.Generator.getD fallbackGenerator)⟩ := by
  cases hv : v.Generator with
  | none => cases v; simp_all [withFallback]
  | some g => cases v; simp_all [withFallback]

/-- Embeds Go `InfiniteVectorIndex.Insert`.  The Go method always
returns a nil error, so the error return is omitted; it writes the
(possibly fallback-equipped) vector into `vectorSpace` and the metadata
into `metadataStore`, both under `record.ID` (map assignment, so any
prior binding is overwritten). -/
noncomputable def Insert (db : InfiniteVectorIndex) (record : DatabaseRecord) :
    InfiniteVectorIndex :=
  { db with
    vectorSpace := mapUpdate record.ID (withFallback record.Vector) db.vectorSpace,
    metadataStore := mapUpdate record.ID record.Metadata db.metadataStore }

/-- The record is stored in `db` with the exact content `Insert` writes. -/
def recordStored (db : InfiniteVectorIndex) (record : DatabaseRecord) : Prop :=
  mapLookup record.ID db.vectorSpace = some (withFallback record.Vector) ∧
  mapLookup record.ID db.metadataStore = some record.Metadata

theorem recordStored_Insert (db : InfiniteVectorIndex) (record : DatabaseRecord) :
    recordStored (Insert db record) record :=
  ⟨mapLookup_mapUpdate_self .., mapLookup_mapUpdate_self ..⟩

/-- C5: `Insert` stores the record under `record.ID`, installing the
fallback generator `f(d) = exp(-d/10) * sin(d)` exactly when the vector
carries no generator (present generators are kept untouched), and an
insert with an already-present id overwrites: after two inserts with the
same id there is exactly one stored binding for that id, carrying the
vector and the metadata of the second insert. -/
theorem Insert_overwrite_and_fallback
    (db : InfiniteVectorIndex) (r1 r2 : DatabaseRecord)
    (hid : r1.ID = r2.ID)
    (hv : (db.vectorSpace.map Prod.fst).Nodup)
    (hm : (db.metadataStore.map Prod.fst).Nodup) :
    mapLookup r2.ID (Insert (Insert db r1) r2).vectorSpace
        = some ⟨r2.Vector.elements, some (r2.Vector.Generator.getD fallbackGenerator)⟩ ∧
    mapLookup r2.ID (Insert (Insert db r1) r2).metadataStore = some r2.Metadata ∧
    ((Insert (Insert db r1) r2).vectorSpace.map Prod.fst).count r2.ID = 1 ∧
    ((Insert (Insert db r1) r2).metadataStore.map Prod.fst).count r2.ID = 1 := by
  refine ⟨?_, mapLookup_mapUpdate_self .., ?_, ?_⟩
  · rw [← withFallback_generator]
    exact mapLookup_mapUpdate_self ..
  · exact mapUpdate_count_one _ _ (mapUpdate_keys_nodup _ _ hv)
  · exact mapUpdate_count_one _ _ (mapUpdate_keys_nodup _ _ hm)

/-- Concrete witness for C5: two generator-less records with id "r1"
inserted into the empty index. -/
theorem Insert_overwrite_and_fallback_witness :
    (("r1" : String) = "r1" ∧
      ((([] : List (String × InfiniteVector)).map Prod.fst).Nodup) ∧
      ((([] : List (String × MetadataMap)).map Prod.fst).Nodup)) ∧
    (mapLookup "r1" (Insert (Insert ⟨[], [], []⟩ ⟨"r1", [("a", "1")], ⟨[], none⟩⟩)
          ⟨"r1", [("b", "2")], ⟨[], none⟩⟩).vectorSpace
        = some ⟨[], some ((none : Option (ℤ → ℝ)).getD fallbackGenerator)⟩ ∧
      mapLookup "r1" (Insert (Insert ⟨[], [], []⟩ ⟨"r1", [("a", "1")], ⟨[], none⟩⟩)
          ⟨"r1", [("b", "2")], ⟨[], none⟩⟩).metadataStore = some [("b", "2")] ∧
      ((Insert (Insert ⟨[], [], []⟩ ⟨"r1", [("a", "1")], ⟨[], none⟩⟩)
          ⟨"r1", [("b", "2")], ⟨[], none⟩⟩).vectorSpace.map Prod.fst).count "r1" = 1 ∧
      ((Insert (Insert ⟨[], [], []⟩ ⟨"r1", [("a", "1")], ⟨[], none⟩⟩)
          ⟨"r1", [("b", "2")], ⟨[], none⟩⟩).metadataStore.map Prod.fst).count "r1" = 1) :=
  ⟨⟨rfl, by simp, by simp⟩,
    Insert_overwrite_and_fallback ⟨[], [], []⟩ ⟨"r1", [("a", "1")], ⟨[], none⟩⟩
      ⟨"r1", [("b", "2")], ⟨[], none⟩⟩ rfl (by simp) (by simp)⟩

end Hydap

namespace Hydap

/-- The scan loop of Go `InfiniteVectorIndex.QueryByDimension`: walk the
stored `(id, vector)` bindings, append a reconstructed record whenever
the selector accepts the vector, and break as soon as
`len(results) >= maxResults` — checked only after an append, which is
why the Go `int` argument is kept as `ℤ`. -/
def queryByDimensionLoop (metadataStore : List (String × MetadataMap))
    (dimensionSelector : InfiniteVector → Bool) (maxResults : ℤ) :
    List (String × InfiniteVector) → List DatabaseRecord → List DatabaseRecord
  | [], results => results
  | (id, vector) :: rest, results =>
    if dimensionSelector vector then
      let results' := results ++ [⟨id, (mapLookup id metadataStore).getD [], vector⟩]
      if (results'.length : ℤ) ≥ maxResults then results'
      else queryByDimensionLoop metadataStore dimensionSelector maxResults rest results'
    else queryByDimensionLoop metadataStore dimensionSelector maxResults rest results

/-- Embeds Go `InfiniteVectorIndex.QueryByDimension`.  The selector is
modelled as a pure predicate on the vector value (Go may grow the
vector's cache through `GetElement`, which does not change any
observable element because generators are pure). -/
def QueryByDimension (db : InfiniteVectorIndex)
    (dimensionSelector : InfiniteVector → Bool) (maxResults : ℤ) : List DatabaseRecord :=
  queryByDimensionLoop db.metadataStore dimensionSelector maxResults db.vectorSpace []

theorem queryByDimensionLoop_selector (ms : List (String × MetadataMap))
    (sel : InfiniteVector → Bool) (m : ℤ) (entries : List (String × InfiniteVector))
    (acc : List DatabaseRecord) (hacc : ∀ r ∈ acc, sel r.Vector = true) :
    ∀ r ∈ queryByDimensionLoop ms sel m entries acc, sel r.Vector = true := by
  induction entries generalizing acc with
  | nil => simpa [queryByDimensionLoop] using hacc
  | cons hd rest ih =>
    obtain ⟨id, vector⟩ := hd
    by_cases hs : sel vector = true
    · simp only [queryByDimensionLoop, if_pos hs]
      have hacc' : ∀ r ∈ acc ++ [(⟨id, (mapLookup id ms).getD [], vector⟩ : DatabaseRecord)],
          sel r.Vector = true := by
        intro r hr
        rcases List.mem_append.mp hr with hr | hr
        · exact hacc r hr
        · simp only [List.mem_singleton] at hr
          subst hr
          exact hs
      by_cases hlen : ((acc ++ [(⟨id, (mapLookup id ms).getD [], vector⟩ : DatabaseRecord)]).length : ℤ) ≥ m
      · rw [if_pos hlen]
        exact hacc'
      · rw [if_neg hlen]
        exact ih _ hacc'
    · simp only [queryByDimensionLoop, if_neg hs]
      exact ih _ hacc

theorem queryByDimensionLoop_length_le (ms : List (String × MetadataMap))
    (sel : InfiniteVector → Bool) (m : ℤ) (entries : List (String × InfiniteVector))
    (acc : List DatabaseRecord) (hacc : (acc.length : ℤ) < m) :
    ((queryByDimensionLoop ms sel m entries acc).length : ℤ) ≤ m := by
  induction entries generalizing acc with
  | nil =>
    simp only [queryByDimensionLoop]
    omega
  | cons hd rest ih =>
    obtain ⟨id, vector⟩ := hd
    by_cases hs : sel vector = true
    · simp only [queryByDimensionLoop, if_pos hs]
      by_cases hlen : ((acc ++ [(⟨id, (mapLookup id ms).getD [], vector⟩ : DatabaseRecord)]).length : ℤ) ≥ m
      · rw [if_pos hlen]
        simp only [List.length_append, List.length_singleton]
        omega
      · rw [if_neg hlen]
        refine ih _ ?_
        simp only [List.length_append, List.length_singleton] at hlen ⊢
        omega
    · simp only [queryByDimensionLoop, if_neg hs]
      exact ih _ hacc

theorem queryByDimensionLoop_nonpos (ms : List (String × MetadataMap))
    (sel : InfiniteVector → Bool) (m : ℤ) (entries : List (String × InfiniteVector))
    (hm : m ≤ 0) :
    (queryByDimensionLoop ms sel m entries []).length ≤ 1 := by
  induction entries with
  | nil => simp [queryByDimensionLoop]
  | cons hd rest ih =>
    obtain ⟨id, vector⟩ := hd
    by_cases hs : sel vector = true
    · have hlen : ((([] : List DatabaseRecord)
          ++ [(⟨id, (mapLookup id ms).getD [], vector⟩ : DatabaseRecord)]).length : ℤ) ≥ m := by
        simp only [List.nil_append, List.length_singleton]
        omega
      simp only [queryByDimensionLoop, if_pos hs, if_pos hlen]
      simp
    · simp only [queryByDimensionLoop, if_neg hs]
      exact ih

/-- C9 counterexample: with `maxResults = 0` and one matching record,
`QueryByDimension` still returns one record (the cap is checked only
after an append), so the claimed "at most maxResults records" bound
fails for `maxResults = 0`. -/
theorem QueryByDimension_zero_cap_returns_one :
    (QueryByDimension ⟨[("r1", ⟨[], none⟩)], [], []⟩ (fun _ => true) 0).length = 1 ∧
    ¬ (((QueryByDimension ⟨[("r1", ⟨[], none⟩)], [], []⟩ (fun _ => true) 0).length : ℤ)
        ≤ 0) := by
  constructor
  · simp [QueryByDimension, queryByDimensionLoop]
  · simp [QueryByDimension, queryByDimensionLoop]

/-- C9 amended: every returned record's vector satisfies the predicate
and the scan stops once the cap is reached; the returned list has at
most `maxResults` elements whenever `maxResults ≥ 1`, while for
`maxResults ≤ 0` the scan still returns the first match if there is one
(at most one record), because the cap is only checked after an append. -/
theorem QueryByDimension_cap_and_selector (db : InfiniteVectorIndex)
    (dimensionSelector : InfiniteVector → Bool) (maxResults : ℤ) :
    (∀ r ∈ QueryByDimension db dimensionSelector maxResults,
        dimensionSelector r.Vector = true) ∧
    (1 ≤ maxResults →
      ((QueryByDimension db dimensionSelector maxResults).length : ℤ) ≤ maxResults) ∧
    (maxResults ≤ 0 → (QueryByDimension db dimensionSelector maxResults).length ≤ 1) := by
  refine ⟨?_, ?_, ?_⟩
  · exact queryByDimensionLoop_selector _ _ _ _ [] (by simp)
  · intro h1
    exact queryByDimensionLoop_length_le _ _ _ _ [] (by simpa using h1)
  · intro h0
    exact queryByDimensionLoop_nonpos _ _ _ _ h0

/-- Concrete witness for the amended C9, at `maxResults = 1` over a
two-record index with an always-true selector. -/
theorem QueryByDimension_cap_and_selector_witness :
    (∀ r ∈ QueryByDimension ⟨[("r1", ⟨[], none⟩), ("r2", ⟨[], none⟩)], [], []⟩
        (fun _ => true) 1, (fun (_ : InfiniteVector) => true) r.Vector = true) ∧
    ((1 : ℤ) ≤ 1 →
      ((QueryByDimension ⟨[("r1", ⟨[], none⟩), ("r2", ⟨[], none⟩)], [], []⟩
          (fun _ => true) 1).length : ℤ) ≤ 1) ∧
    ((1 : ℤ) ≤ 0 →
      (QueryByDimension ⟨[("r1", ⟨[], none⟩), ("r2", ⟨[], none⟩)], [], []⟩
          (fun _ => true) 1).length ≤ 1) :=
  QueryByDimension_cap_and_selector ⟨[("r1", ⟨[], none⟩), ("r2", ⟨[], none⟩)], [], []⟩
    (fun _ => true) 1

end Hydap

namespace Hydap

/-- The element value Go `GetElement(i)` yields at a nonnegative index:
the cached element when present, otherwise the generator's value (the
call panics on a nil generator, hence `Option`).  Go's cache growth
inside `ComputeVectorSimilarity` is unobservable because generators are
pure, so the similarity code is modelled over this pure view. -/
def elementAt (v : InfiniteVector) (i : ℕ) : Option ℝ :=
  if h : i < v.elements.length then some (v.elements.get ⟨i, h⟩)
  else v.Generator.map fun g => g (i : ℤ)

/-- The defaulted element value, used once availability is established. -/
def elemD (v : InfiniteVector) (i : ℕ) : ℝ := (elementAt v i).getD 0

/-- Numerator of Go `ComputeVectorSimilarity`:
`n*sumXY - sumX*sumY` with the loop sums written as range sums. -/
noncomputable def pearsonNumerator (x y : ℕ → ℝ) (n : ℕ) : ℝ :=
  (n : ℝ) * (∑ i in Finset.range n, x i * y i)
    - (∑ i in Finset.range n, x i) * (∑ i in Finset.range n, y i)

/-- One factor under the square root of the denominator:
`n*sumX2 - sumX*sumX`. -/
noncomputable def pearsonDx (x : ℕ → ℝ) (n : ℕ) : ℝ :=
  (n : ℝ) * (∑ i in Finset.range n, x i * x i)
    - (∑ i in Finset.range n, x i) * (∑ i in Finset.range n, x i)

/-- Denominator of Go `ComputeVectorSimilarity`:
`math.Sqrt((n*sumX2 - sumX*sumX) * (n*sumY2 - sumY*sumY))`. -/
noncomputable def pearsonDenominator (x y : ℕ → ℝ) (n : ℕ) : ℝ :=
  Real.sqrt (pearsonDx x n * pearsonDx y n)

open Classical in
/-- The arithmetic tail of Go `ComputeVectorSimilarity`: if the
denominator is zero return 0, else `numerator / denominator`. -/
noncomputable def pearson (x y : ℕ → ℝ) (n : ℕ) : ℝ :=
  if pearsonDenominator x y n = 0 then 0
  else pearsonNumerator x y n / pearsonDenominator x y n

/-- Embeds Go `ComputeVectorSimilarity`: reads the first `dimensions`
elements of both vectors (panicking, i.e. `none`, when a needed element
requires a nil generator) and applies the Pearson formula. -/
noncomputable def ComputeVectorSimilarity (v1 v2 : InfiniteVector) (dimensions : ℕ) :
    Option ℝ :=
  if (List.range dimensions).all
      (fun i => (elementAt v1 i).isSome && (elementAt v2 i).isSome) then
    some (pearson (elemD v1) (elemD v2) dimensions)
  else none

theorem double_sum_mul (x y : ℕ → ℝ) (n : ℕ) :
    ∑ i in Finset.range n, ∑ j in Finset.range n, (x i - x j) * (y i - y j)
      = 2 * pearsonNumerator x y n := by
  have h : ∀ i ∈ Finset.range n, ∑ j in Finset.range n, (x i - x j) * (y i - y j)
      = (n : ℝ) * (x i * y i) - x i * (∑ j in Finset.range n, y j)
        - (∑ j in Finset.range n, x j) * y i + ∑ j in Finset.range n, x j * y j := by
    intro i _
    have hexp : ∀ j ∈ Finset.range n, (x i - x j) * (y i - y j)
        = x i * y i - x i * y j - x j * y i + x j * y j := fun j _ => by ring
    rw [Finset.sum_congr rfl hexp]
    simp only [Finset.sum_add_distrib, Finset.sum_sub_distrib, ← Finset.mul_sum,
      ← Finset.sum_mul, Finset.sum_const, Finset.card_range, nsmul_eq_mul]
    ring
  rw [Finset.sum_congr rfl h]
  simp only [Finset.sum_add_distrib, Finset.sum_sub_distrib, ← Finset.mul_sum,
    ← Finset.sum_mul, Finset.sum_const, Finset.card_range, nsmul_eq_mul,
    pearsonNumerator]
  ring

end Hydap

namespace Hydap

theorem pearsonDx_nonneg (x : ℕ → ℝ) (n : ℕ) : 0 ≤ pearsonDx x n := by
  have h := double_sum_mul x x n
  have hnn : 0 ≤ ∑ i in Finset.range n, ∑ j in Finset.range n, (x i - x j) * (x i - x j) :=
    Finset.sum_nonneg fun i _ => Finset.sum_nonneg fun j _ => mul_self_nonneg _
  have hx : pearsonNumerator x x n = pearsonDx x n := by
    simp [pearsonNumerator, pearsonDx]
  rw [h, hx] at hnn
  linarith

theorem pearsonNumerator_sq_le (x y : ℕ → ℝ) (n : ℕ) :
    pearsonNumerator x y n ^ 2 ≤ pearsonDx x n * pearsonDx y n := by
  have hcs := Finset.sum_mul_sq_le_sq_mul_sq ((Finset.range n) ×ˢ (Finset.range n))
    (fun p => x p.1 - x p.2) (fun p => y p.1 - y p.2)
  simp only [Finset.sum_product] at hcs
  have h1 : ∑ i in Finset.range n, ∑ j in Finset.range n, (x i - x j) * (y i - y j)
      = 2 * pearsonNumerator x y n := double_sum_mul x y n
  have h2 : ∑ i in Finset.range n, ∑ j in Finset.range n, (x i - x j) ^ 2
      = 2 * pearsonDx x n := by
    have := double_sum_mul x x n
    simp only [pearsonNumerator] at this
    simp only [sq]
    rw [this]
    simp [pearsonDx]
  have h3 : ∑ i in Finset.range n, ∑ j in Finset.range n, (y i - y j) ^ 2
      = 2 * pearsonDx y n := by
    have := double_sum_mul y y n
    simp only [pearsonNumerator] at this
    simp only [sq]
    rw [this]
    simp [pearsonDx]
  rw [h1, h2, h3] at hcs
  nlinarith [hcs]

theorem pearson_mem_Icc (x y : ℕ → ℝ) (n : ℕ) :
    -1 ≤ pearson x y n ∧ pearson x y n ≤ 1 := by
  unfold pearson
  by_cases hd : pearsonDenominator x y n = 0
  · rw [if_pos hd]
    norm_num
  · rw [if_neg hd]
    have hDnn : 0 ≤ pearsonDenominator x y n := Real.sqrt_nonneg _
    have hDpos : 0 < pearsonDenominator x y n := lt_of_le_of_ne hDnn (Ne.symm hd)
    have hDsq : pearsonDenominator x y n ^ 2 = pearsonDx x n * pearsonDx y n :=
      Real.sq_sqrt (mul_nonneg (pearsonDx_nonneg x n) (pearsonDx_nonneg y n))
    have hnum : pearsonNumerator x y n ^ 2 ≤ pearsonDenominator x y n ^ 2 := by
      rw [hDsq]
      exact pearsonNumerator_sq_le x y n
    have h1 : pearsonNumerator x y n ≤ pearsonDenominator x y n := by nlinarith
    have h2 : -pearsonDenominator x y n ≤ pearsonNumerator x y n := by nlinarith
    constructor
    · rw [le_div_iff₀ hDpos]
      linarith
    · rw [div_le_one hDpos]
      exact h1

theorem pearson_den_zero (x y : ℕ → ℝ) (n : ℕ)
    (h : pearsonDenominator x y n = 0) : pearson x y n = 0 := by
  unfold pearson
  rw [if_pos h]

theorem pearsonDx_const (x : ℕ → ℝ) (n : ℕ) (c : ℝ) (hc : ∀ i < n, x i = c) :
    pearsonDx x n = 0 := by
  have hs : ∑ i in Finset.range n, x i = (n : ℝ) * c := by
    rw [Finset.sum_congr rfl fun i hi => hc i (Finset.mem_range.mp hi)]
    simp [mul_comm]
  have hs2 : ∑ i in Finset.range n, x i * x i = (n : ℝ) * (c * c) := by
    rw [Finset.sum_congr rfl fun i hi => by
      rw [hc i (Finset.mem_range.mp hi)]]
    simp [mul_comm]
  unfold pearsonDx
  rw [hs, hs2]
  ring

/-- C3: whenever Go `ComputeVectorSimilarity(v1, v2, n)` (with `n ≥ 1`)
returns a value, that value lies in `[-1, 1]`; when the Pearson
denominator is zero it is exactly `0` (never an error), and in
particular a constant first vector over the compared window forces the
result `0`. -/
theorem ComputeVectorSimilarity_bounds (v1 v2 : InfiniteVector) (n : ℕ) (s : ℝ)
    (hn : 1 ≤ n) (h : ComputeVectorSimilarity v1 v2 n = some s) :
    (-1 ≤ s ∧ s ≤ 1) ∧
    (pearsonDenominator (elemD v1) (elemD v2) n = 0 → s = 0) ∧
    (∀ c : ℝ, (∀ i < n, elemD v1 i = c) → s = 0) := by
  unfold ComputeVectorSimilarity at h
  by_cases hall : (List.range n).all
      (fun i => (elementAt v1 i).isSome && (elementAt v2 i).isSome) = true
  · rw [if_pos hall] at h
    have hs : s = pearson (elemD v1) (elemD v2) n := (Option.some.inj h).symm
    subst hs
    refine ⟨pearson_mem_Icc _ _ n, pearson_den_zero _ _ n, ?_⟩
    intro c hc
    apply pearson_den_zero
    unfold pearsonDenominator
    rw [pearsonDx_const (elemD v1) n c hc]
    simp
  · rw [if_neg hall] at h
    exact absurd h (by simp)

/-- Concrete witness for C3: two empty-cache vectors with the constant-0
generator compared over one dimension (a degenerate window, similarity
exactly 0). -/
theorem ComputeVectorSimilarity_bounds_witness :
    (1 ≤ 1 ∧
      ComputeVectorSimilarity ⟨[], some fun _ => (0 : ℝ)⟩ ⟨[], some fun _ => (0 : ℝ)⟩ 1
        = some 0) ∧
    ((-1 ≤ (0 : ℝ) ∧ (0 : ℝ) ≤ 1) ∧
      (pearsonDenominator (elemD ⟨[], some fun _ => (0 : ℝ)⟩)
          (elemD ⟨[], some fun _ => (0 : ℝ)⟩) 1 = 0 → (0 : ℝ) = 0) ∧
      (∀ c : ℝ, (∀ i < 1, elemD (⟨[], some fun _ => (0 : ℝ)⟩ : InfiniteVector) i = c) →
        (0 : ℝ) = 0)) := by
  have hrun : ComputeVectorSimilarity ⟨[], some fun _ => (0 : ℝ)⟩
      ⟨[], some fun _ => (0 : ℝ)⟩ 1 = some 0 := by
    have hden : pearsonDenominator (elemD ⟨[], some fun _ => (0 : ℝ)⟩)
        (elemD ⟨[], some fun _ => (0 : ℝ)⟩) 1 = 0 := by
      unfold pearsonDenominator
      rw [pearsonDx_const _ 1 0 fun i _ => by simp [elemD, elementAt]]
      simp
    simp only [ComputeVectorSimilarity, List.range_succ, List.range_zero, List.nil_append,
      List.all_cons, List.all_nil, elementAt, elemD]
    norm_num
    rw [pearson_den_zero _ _ 1 hden]
  exact ⟨⟨le_refl 1, hrun⟩,
    ComputeVectorSimilarity_bounds ⟨[], some fun _ => (0 : ℝ)⟩ ⟨[], some fun _ => (0 : ℝ)⟩
      1 0 (le_refl 1) hrun⟩

end Hydap

namespace Hydap

open Classical in
/-- The scan of Go `InfiniteVectorIndex.AdvancedQuery`: for every stored
binding compute the similarity to the query vector over the first
`maxDimensions` elements and keep records scoring at or above the
threshold.  The result is uncapped.  A panic inside the similarity
computation (nil generator) aborts the whole call (`none`). -/
noncomputable def advancedQueryLoop (metadataStore : List (String × MetadataMap))
    (similarityThreshold : ℝ) (queryVector : InfiniteVector) (maxDimensions : ℕ) :
    List (String × InfiniteVector) → Option (List DatabaseRecord)
  | [] => some []
  | (id, vector) :: rest =>
    match ComputeVectorSimilarity queryVector vector maxDimensions with
    | none => none
    | some similarity =>
      match advancedQueryLoop metadataStore similarityThreshold queryVector maxDimensions rest with
      | none => none
      | some results =>
        if similarity ≥ similarityThreshold then
          some (⟨id, (mapLookup id metadataStore).getD [], vector⟩ :: results)
        else some results

/-- Embeds Go `InfiniteVectorIndex.AdvancedQuery`. -/
noncomputable def AdvancedQuery (db : InfiniteVectorIndex) (similarityThreshold : ℝ)
    (queryVector : InfiniteVector) (maxDimensions : ℕ) : Option (List DatabaseRecord) :=
  advancedQueryLoop db.metadataStore similarityThreshold queryVector maxDimensions
    db.vectorSpace

/-- Embeds Go `agglomerator.Chain` (the unexported compressor fields are
used only by the excluded compression subsystem and are omitted). -/
structure Chain where
  ID : String
  Endpoint : String
  Protocol : String
  StateVector : InfiniteVector
  TransactionPool : InfiniteVectorIndex

/-- Embeds Go `agglomerator.Transaction` (`Data` bytes are opaque). -/
structure Transaction where
  ID : String
  FromChain : String
  ToChain : String
  Data : List ℕ
  StateVector : InfiniteVector
  Similarity : ℝ

/-- Embeds Go `agglomerator.Agglomerator` (chain registry plus global
vector index). -/
structure Agglomerator where
  chains : List (String × Chain)
  vectorIndex : InfiniteVectorIndex

/-- The two routing errors `ErrNoRouteFound` / `ErrChainNotFound`. -/
inductive AggError where
  | noRouteFound
  | chainNotFound
deriving DecidableEq

/-- The DatabaseRecord `ProcessTransaction` builds for a transaction. -/
def txRecord (tx : Transaction) : DatabaseRecord :=
  ⟨tx.ID, [("fromChain", tx.FromChain), ("toChain", tx.ToChain)], tx.StateVector⟩

/-- Go `chain.TransactionPool.Insert(record)` through the registry
pointer: the chain stored under `id` gets the record inserted into its
pool. -/
noncomputable def insertIntoPool (chains : List (String × Chain)) (id : String)
    (record : DatabaseRecord) : List (String × Chain) :=
  match mapLookup id chains with
  | none => chains
  | some c =>
      mapUpdate id { c with TransactionPool := Insert c.TransactionPool record } chains

/-- Embeds Go `Agglomerator.ProcessTransaction`: query the global index
over the fixed 50-dimension window at the transaction's threshold; zero
matches fail with `noRouteFound`; otherwise the transaction record is
inserted into the global index, then `FromChain` and `ToChain` are
resolved (each absence fails with `chainNotFound`, after the insert),
and finally the record is inserted into both chains' pools.  `none`
models a panic inside the similarity query. -/
noncomputable def ProcessTransaction (a : Agglomerator) (tx : Transaction) :
    Option (Except AggError Unit × Agglomerator) :=
  match AdvancedQuery a.vectorIndex tx.Similarity tx.StateVector 50 with
  | none => none
  | some similarChains =>
    if similarChains.length = 0 then some (Except.error AggError.noRouteFound, a)
    else
      let record := txRecord tx
      let a' : Agglomerator := { a with vectorIndex := Insert a.vectorIndex record }
      match mapLookup tx.FromChain a'.chains with
      | none => some (Except.error AggError.chainNotFound, a')
      | some _ =>
        match mapLookup tx.ToChain a'.chains with
        | none => some (Except.error AggError.chainNotFound, a')
        | some _ =>
          let cs1 := insertIntoPool a'.chains tx.FromChain record
          let cs2 := insertIntoPool cs1 tx.ToChain record
          some (Except.ok (), { a' with chains := cs2 })

theorem insertIntoPool_lookup_self {chains : List (String × Chain)} {id : String}
    {c : Chain} (record : DatabaseRecord) (hc : mapLookup id chains = some c) :
    mapLookup id (insertIntoPool chains id record)
      = some { c with TransactionPool := Insert c.TransactionPool record } := by
  unfold insertIntoPool
  rw [hc]
  exact mapLookup_mapUpdate_self ..

theorem insertIntoPool_lookup_ne {chains : List (String × Chain)} {id id' : String}
    (h : id' ≠ id) (record : DatabaseRecord) :
    mapLookup id' (insertIntoPool chains id record) = mapLookup id' chains := by
  unfold insertIntoPool
  cases hc : mapLookup id chains with
  | none => rfl
  | some c => exact mapLookup_mapUpdate_ne h ..

end Hydap

namespace Hydap

/-- C1: whenever `ProcessTransaction` completes, it returns
`noRouteFound` exactly when the 50-dimension `AdvancedQuery` at the
transaction's threshold yields zero matches; and when matches exist but
`FromChain` or `ToChain` is absent from the chain registry it returns
`chainNotFound`, regardless of which chains the query matched. -/
theorem ProcessTransaction_route_errors (a : Agglomerator) (tx : Transaction)
    (r : Except AggError Unit) (a' : Agglomerator)
    (h : ProcessTransaction a tx = some (r, a')) :
    (r = Except.error AggError.noRouteFound ↔
      AdvancedQuery a.vectorIndex tx.Similarity tx.StateVector 50 = some []) ∧
    (∀ ms, AdvancedQuery a.vectorIndex tx.Similarity tx.StateVector 50 = some ms →
      ms ≠ [] →
      (mapLookup tx.FromChain a.chains = none ∨ mapLookup tx.ToChain a.chains = none) →
      r = Except.error AggError.chainNotFound) := by
  unfold ProcessTransaction at h
  cases hq : AdvancedQuery a.vectorIndex tx.Similarity tx.StateVector 50 with
  | none => rw [hq] at h; exact absurd h (by simp)
  | some ms0 =>
    rw [hq] at h
    simp only at h
    by_cases hlen : ms0.length = 0
    · rw [if_pos hlen] at h
      have hms0 : ms0 = [] := List.length_eq_zero.mp hlen
      have hr : r = Except.error AggError.noRouteFound := by
        have := Option.some.inj h
        exact (congrArg Prod.fst this).symm
      subst hms0
      constructor
      · exact ⟨fun _ => rfl, fun _ => hr⟩
      · intro ms hms hne _
        exact absurd (Option.some.inj hms).symm hne
    · rw [if_neg hlen] at h
      have hne0 : ms0 ≠ [] := fun hh => hlen (by simp [hh])
      cases hf : mapLookup tx.FromChain a.chains with
      | none =>
        rw [show mapLookup tx.FromChain
            ({ a with vectorIndex := Insert a.vectorIndex (txRecord tx) } : Agglomerator).chains
            = mapLookup tx.FromChain a.chains from rfl, hf] at h
        have hr : r = Except.error AggError.chainNotFound := by
          have := Option.some.inj h
          exact (congrArg Prod.fst this).symm
        constructor
        · rw [hr]
          constructor
          · intro hcontra
            exact absurd hcontra (by simp)
          · intro hcontra
            exact absurd (Option.some.inj hcontra) hne0
        · intro _ _ _ _
          exact hr
      | some fc =>
        rw [show mapLookup tx.FromChain
            ({ a with vectorIndex := Insert a.vectorIndex (txRecord tx) } : Agglomerator).chains
            = mapLookup tx.FromChain a.chains from rfl, hf] at h
        cases ht : mapLookup tx.ToChain a.chains with
        | none =>
          rw [show mapLookup tx.ToChain
              ({ a with vectorIndex := Insert a.vectorIndex (txRecord tx) } : Agglomerator).chains
              = mapLookup tx.ToChain a.chains from rfl, ht] at h
          have hr : r = Except.error AggError.chainNotFound := by
            have := Option.some.inj h
            exact (congrArg Prod.fst this).symm
          constructor
          · rw [hr]
            constructor
            · intro hcontra
              exact absurd hcontra (by simp)
            · intro hcontra
              exact absurd (Option.some.inj hcontra) hne0
          · intro _ _ _ _
            exact hr
        | some tc =>
          rw [show mapLookup tx.ToChain
              ({ a with vectorIndex := Insert a.vectorIndex (txRecord tx) } : Agglomerator).chains
              = mapLookup tx.ToChain a.chains from rfl, ht] at h
          have hr : r = Except.ok () := by
            have := Option.some.inj h
            exact (congrArg Prod.fst this).symm
          constructor
          · rw [hr]
            constructor
            · intro hcontra
              exact absurd hcontra (by simp)
            · intro hcontra
              exact absurd (Option.some.inj hcontra) hne0
          · intro ms hms hne habs
            rcases habs with habs | habs
            · exact Option.noConfusion habs
            · exact Option.noConfusion habs

/-- Concrete witness for C1: an agglomerator with an empty global index,
where the query yields zero matches and the call fails with
`noRouteFound`. -/
theorem ProcessTransaction_route_errors_witness :
    ProcessTransaction ⟨[], ⟨[], [], []⟩⟩ ⟨"tx1", "c1", "c2", [], ⟨[], some fun _ => (0 : ℝ)⟩, 0⟩
      = some (Except.error AggError.noRouteFound, ⟨[], ⟨[], [], []⟩⟩) ∧
    ((Except.error AggError.noRouteFound = (Except.error AggError.noRouteFound : Except AggError Unit) ↔
      AdvancedQuery (⟨[], [], []⟩ : InfiniteVectorIndex) 0 ⟨[], some fun _ => (0 : ℝ)⟩ 50
        = some []) ∧
    (∀ ms, AdvancedQuery (⟨[], [], []⟩ : InfiniteVectorIndex) 0
        ⟨[], some fun _ => (0 : ℝ)⟩ 50 = some ms →
      ms ≠ [] →
      (mapLookup "c1" ([] : List (String × Chain)) = none ∨
        mapLookup "c2" ([] : List (String × Chain)) = none) →
      (Except.error AggError.noRouteFound : Except AggError Unit)
        = Except.error AggError.chainNotFound)) := by
  have hrun : ProcessTransaction ⟨[], ⟨[], [], []⟩⟩
      ⟨"tx1", "c1", "c2", [], ⟨[], some fun _ => (0 : ℝ)⟩, 0⟩
      = some (Except.error AggError.noRouteFound, ⟨[], ⟨[], [], []⟩⟩) := by
    simp [ProcessTransaction, AdvancedQuery, advancedQueryLoop]
  exact ⟨hrun,
    ProcessTransaction_route_errors ⟨[], ⟨[], [], []⟩⟩
      ⟨"tx1", "c1", "c2", [], ⟨[], some fun _ => (0 : ℝ)⟩, 0⟩
      (Except.error AggError.noRouteFound) ⟨[], ⟨[], [], []⟩⟩ hrun⟩

end Hydap

namespace Hydap

theorem ComputeVectorSimilarity_zeroGen (n : ℕ) :
    ComputeVectorSimilarity ⟨[], some fun _ => (0 : ℝ)⟩ ⟨[], some fun _ => (0 : ℝ)⟩ n
      = some 0 := by
  have hall : (List.range n).all
      (fun i => (elementAt ⟨[], some fun _ => (0 : ℝ)⟩ i).isSome
        && (elementAt ⟨[], some fun _ => (0 : ℝ)⟩ i).isSome) = true := by
    rw [List.all_eq_true]
    intro i _
    simp [elementAt]
  unfold ComputeVectorSimilarity
  rw [if_pos hall]
  have hden : pearsonDenominator (elemD ⟨[], some fun _ => (0 : ℝ)⟩)
      (elemD ⟨[], some fun _ => (0 : ℝ)⟩) n = 0 := by
    unfold pearsonDenominator
    rw [pearsonDx_const _ n 0 fun i _ => by simp [elemD, elementAt]]
    simp
  rw [pearson_den_zero _ _ n hden]

/-- C10: whenever `ProcessTransaction` returns `chainNotFound` (the
query matched at least one record but an endpoint chain is missing),
the global vector index has already been mutated: it contains the
transaction's record stored under the transaction's ID.  The call is
not atomic on error. -/
theorem ProcessTransaction_chainNotFound_mutates (a : Agglomerator) (tx : Transaction)
    (a' : Agglomerator)
    (h : ProcessTransaction a tx = some (Except.error AggError.chainNotFound, a')) :
    recordStored a'.vectorIndex (txRecord tx) ∧
    (∃ ms, AdvancedQuery a.vectorIndex tx.Similarity tx.StateVector 50 = some ms ∧
      ms ≠ []) := by
  unfold ProcessTransaction at h
  cases hq : AdvancedQuery a.vectorIndex tx.Similarity tx.StateVector 50 with
  | none => rw [hq] at h; exact absurd h (by simp)
  | some ms0 =>
    rw [hq] at h
    simp only at h
    by_cases hlen : ms0.length = 0
    · rw [if_pos hlen] at h
      have hr := congrArg Prod.fst (Option.some.inj h)
      exact absurd hr.symm (by simp)
    · rw [if_neg hlen] at h
      have hne0 : ms0 ≠ [] := fun hh => hlen (by simp [hh])
      refine ?_
      cases hf : mapLookup tx.FromChain a.chains with
      | none =>
        rw [show mapLookup tx.FromChain
            ({ a with vectorIndex := Insert a.vectorIndex (txRecord tx) } : Agglomerator).chains
            = mapLookup tx.FromChain a.chains from rfl, hf] at h
        have ha' := congrArg Prod.snd (Option.some.inj h)
        simp only at ha'
        refine ⟨?_, ms0, rfl, hne0⟩
        rw [← ha']
        exact recordStored_Insert a.vectorIndex (txRecord tx)
      | some fc =>
        rw [show mapLookup tx.FromChain
            ({ a with vectorIndex := Insert a.vectorIndex (txRecord tx) } : Agglomerator).chains
            = mapLookup tx.FromChain a.chains from rfl, hf] at h
        cases ht : mapLookup tx.ToChain a.chains with
        | none =>
          rw [show mapLookup tx.ToChain
              ({ a with vectorIndex := Insert a.vectorIndex (txRecord tx) } : Agglomerator).chains
              = mapLookup tx.ToChain a.chains from rfl, ht] at h
          have ha' := congrArg Prod.snd (Option.some.inj h)
          simp only at ha'
          refine ⟨?_, ms0, rfl, hne0⟩
          rw [← ha']
          exact recordStored_Insert a.vectorIndex (txRecord tx)
        | some tc =>
          rw [show mapLookup tx.ToChain
              ({ a with vectorIndex := Insert a.vectorIndex (txRecord tx) } : Agglomerator).chains
              = mapLookup tx.ToChain a.chains from rfl, ht] at h
          have hr := congrArg Prod.fst (Option.some.inj h)
          exact absurd hr.symm (by simp)

end Hydap

namespace Hydap

/-- C2: whenever `ProcessTransaction` succeeds, the transaction's record
(its ID, its fromChain/toChain metadata, and its state vector, with the
index's documented fallback-generator defaulting) is present in the
global vector index and in both the FromChain's and the ToChain's
transaction pools. -/
theorem ProcessTransaction_success_stores (a : Agglomerator) (tx : Transaction)
    (a' : Agglomerator)
    (h : ProcessTransaction a tx = some (Except.ok (), a')) :
    recordStored a'.vectorIndex (txRecord tx) ∧
    (∃ fc, mapLookup tx.FromChain a'.chains = some fc ∧
      recordStored fc.TransactionPool (txRecord tx)) ∧
    (∃ tc, mapLookup tx.ToChain a'.chains = some tc ∧
      recordStored tc.TransactionPool (txRecord tx)) := by
  unfold ProcessTransaction at h
  cases hq : AdvancedQuery a.vectorIndex tx.Similarity tx.StateVector 50 with
  | none => rw [hq] at h; exact absurd h (by simp)
  | some ms0 =>
    rw [hq] at h
    simp only at h
    by_cases hlen : ms0.length = 0
    · rw [if_pos hlen] at h
      have hr := congrArg Prod.fst (Option.some.inj h)
      exact absurd hr.symm (by simp)
    · rw [if_neg hlen] at h
      cases hf : mapLookup tx.FromChain a.chains with
      | none =>
        rw [show mapLookup tx.FromChain
            ({ a with vectorIndex := Insert a.vectorIndex (txRecord tx) } : Agglomerator).chains
            = mapLookup tx.FromChain a.chains from rfl, hf] at h
        have hr := congrArg Prod.fst (Option.some.inj h)
        exact absurd hr.symm (by simp)
      | some fc0 =>
        rw [show mapLookup tx.FromChain
            ({ a with vectorIndex := Insert a.vectorIndex (txRecord tx) } : Agglomerator).chains
            = mapLookup tx.FromChain a.chains from rfl, hf] at h
        cases ht : mapLookup tx.ToChain a.chains with
        | none =>
          rw [show mapLookup tx.ToChain
              ({ a with vectorIndex := Insert a.vectorIndex (txRecord tx) } : Agglomerator).chains
              = mapLookup tx.ToChain a.chains from rfl, ht] at h
          have hr := congrArg Prod.fst (Option.some.inj h)
          exact absurd hr.symm (by simp)
        | some tc0 =>
          rw [show mapLookup tx.ToChain
              ({ a with vectorIndex := Insert a.vectorIndex (txRecord tx) } : Agglomerator).chains
              = mapLookup tx.ToChain a.chains from rfl, ht] at h
          have ha' := congrArg Prod.snd (Option.some.inj h)
          simp only at ha'
          rw [← ha']
          simp only
          refine ⟨recordStored_Insert a.vectorIndex (txRecord tx), ?_, ?_⟩
          · by_cases heq : tx.ToChain = tx.FromChain
            · have h1 := insertIntoPool_lookup_self (txRecord tx) hf
              have h2 : mapLookup tx.ToChain (insertIntoPool a.chains tx.FromChain (txRecord tx))
                  = some { fc0 with TransactionPool := Insert fc0.TransactionPool (txRecord tx) } := by
                rw [heq]; exact h1
              have h3 := insertIntoPool_lookup_self (txRecord tx) h2
              have h4 : mapLookup tx.FromChain
                  (insertIntoPool (insertIntoPool a.chains tx.FromChain (txRecord tx))
                    tx.ToChain (txRecord tx))
                  = some { fc0 with TransactionPool := Insert (Insert fc0.TransactionPool (txRecord tx)) (txRecord tx) } := by
                nth_rewrite 1 [← heq]
                exact h3
              exact ⟨_, h4, recordStored_Insert _ (txRecord tx)⟩
            · have h1 := insertIntoPool_lookup_self (txRecord tx) hf
              have h2 : mapLookup tx.FromChain
                  (insertIntoPool (insertIntoPool a.chains tx.FromChain (txRecord tx))
                    tx.ToChain (txRecord tx))
                  = some { fc0 with TransactionPool := Insert fc0.TransactionPool (txRecord tx) } := by
                rw [insertIntoPool_lookup_ne (Ne.symm heq) (txRecord tx)]
                exact h1
              exact ⟨_, h2, recordStored_Insert _ (txRecord tx)⟩
          · by_cases heq : tx.ToChain = tx.FromChain
            · have h1 := insertIntoPool_lookup_self (txRecord tx) hf
              have h2 : mapLookup tx.ToChain (insertIntoPool a.chains tx.FromChain (txRecord tx))
                  = some { fc0 with TransactionPool := Insert fc0.TransactionPool (txRecord tx) } := by
                rw [heq]; exact h1
              have h3 : mapLookup tx.ToChain
                  (insertIntoPool (insertIntoPool a.chains tx.FromChain (txRecord tx))
                    tx.ToChain (txRecord tx))
                  = some { fc0 with TransactionPool := Insert (Insert fc0.TransactionPool (txRecord tx)) (txRecord tx) } :=
                insertIntoPool_lookup_self (txRecord tx) h2
              exact ⟨_, h3, recordStored_Insert _ (txRecord tx)⟩
            · have h2 : mapLookup tx.ToChain (insertIntoPool a.chains tx.FromChain (txRecord tx))
                  = some tc0 := by
                rw [insertIntoPool_lookup_ne heq (txRecord tx)]
                exact ht
              have h3 := insertIntoPool_lookup_self (txRecord tx) h2
              exact ⟨_, h3, recordStored_Insert _ (txRecord tx)⟩

end Hydap

namespace Hydap

/-- Empty-cache vector with the constant-0 generator, used by concrete
witnesses. -/
def zeroVec : InfiniteVector := ⟨[], some fun _ => (0 : ℝ)⟩

theorem AdvancedQuery_oneZeroRec :
    AdvancedQuery ⟨[("c1", zeroVec)], [], []⟩ (-1) zeroVec 50
      = some [⟨"c1", [], zeroVec⟩] := by
  unfold AdvancedQuery
  simp only [advancedQueryLoop, zeroVec, ComputeVectorSimilarity_zeroGen, mapLookup]
  rw [if_pos (by norm_num : (0 : ℝ) ≥ -1)]
  simp

theorem ProcessTransaction_chainNotFound_run :
    ProcessTransaction ⟨[], ⟨[("c1", zeroVec)], [], []⟩⟩ ⟨"tx1", "c1", "c1", [], zeroVec, -1⟩
      = some (Except.error AggError.chainNotFound,
          ⟨[], Insert ⟨[("c1", zeroVec)], [], []⟩
            (txRecord ⟨"tx1", "c1", "c1", [], zeroVec, -1⟩)⟩) := by
  unfold ProcessTransaction
  rw [show (⟨[], ⟨[("c1", zeroVec)], [], []⟩⟩ : Agglomerator).vectorIndex
      = (⟨[("c1", zeroVec)], [], []⟩ : InfiniteVectorIndex) from rfl]
  rw [show (⟨"tx1", "c1", "c1", [], zeroVec, -1⟩ : Transaction).Similarity = (-1 : ℝ) from rfl]
  rw [show (⟨"tx1", "c1", "c1", [], zeroVec, -1⟩ : Transaction).StateVector = zeroVec from rfl]
  rw [AdvancedQuery_oneZeroRec]
  simp [mapLookup]

/-- Concrete witness for C10: a matching record exists in the global
index but the registry is empty, so the call fails with `chainNotFound`
after the global insert has happened. -/
theorem ProcessTransaction_chainNotFound_mutates_witness :
    ProcessTransaction ⟨[], ⟨[("c1", zeroVec)], [], []⟩⟩ ⟨"tx1", "c1", "c1", [], zeroVec, -1⟩
      = some (Except.error AggError.chainNotFound,
          ⟨[], Insert ⟨[("c1", zeroVec)], [], []⟩
            (txRecord ⟨"tx1", "c1", "c1", [], zeroVec, -1⟩)⟩) ∧
    (recordStored (⟨[], Insert ⟨[("c1", zeroVec)], [], []⟩
          (txRecord ⟨"tx1", "c1", "c1", [], zeroVec, -1⟩)⟩ : Agglomerator).vectorIndex
        (txRecord ⟨"tx1", "c1", "c1", [], zeroVec, -1⟩) ∧
      ∃ ms, AdvancedQuery (⟨[], ⟨[("c1", zeroVec)], [], []⟩⟩ : Agglomerator).vectorIndex
          (-1) zeroVec 50 = some ms ∧ ms ≠ []) :=
  ⟨ProcessTransaction_chainNotFound_run,
    ProcessTransaction_chainNotFound_mutates ⟨[], ⟨[("c1", zeroVec)], [], []⟩⟩
      ⟨"tx1", "c1", "c1", [], zeroVec, -1⟩
      ⟨[], Insert ⟨[("c1", zeroVec)], [], []⟩ (txRecord ⟨"tx1", "c1", "c1", [], zeroVec, -1⟩)⟩
      ProcessTransaction_chainNotFound_run⟩

end Hydap

namespace Hydap

/-- Chain used by the C2 witness. -/
def chainC1 : Chain := ⟨"c1", "endpointA", "eth", zeroVec, ⟨[], [], []⟩⟩

theorem ProcessTransaction_success_run :
    ProcessTransaction ⟨[("c1", chainC1)], ⟨[("c1", zeroVec)], [], []⟩⟩
        ⟨"tx1", "c1", "c1", [], zeroVec, -1⟩
      = some (Except.ok (),
          ⟨insertIntoPool (insertIntoPool [("c1", chainC1)] "c1"
              (txRecord ⟨"tx1", "c1", "c1", [], zeroVec, -1⟩)) "c1"
              (txRecord ⟨"tx1", "c1", "c1", [], zeroVec, -1⟩),
            Insert ⟨[("c1", zeroVec)], [], []⟩
              (txRecord ⟨"tx1", "c1", "c1", [], zeroVec, -1⟩)⟩) := by
  unfold ProcessTransaction
  rw [show (⟨[("c1", chainC1)], ⟨[("c1", zeroVec)], [], []⟩⟩ : Agglomerator).vectorIndex
      = (⟨[("c1", zeroVec)], [], []⟩ : InfiniteVectorIndex) from rfl]
  rw [show (⟨"tx1", "c1", "c1", [], zeroVec, -1⟩ : Transaction).Similarity = (-1 : ℝ) from rfl]
  rw [show (⟨"tx1", "c1", "c1", [], zeroVec, -1⟩ : Transaction).StateVector = zeroVec from rfl]
  rw [AdvancedQuery_oneZeroRec]
  simp [mapLookup]

/-- Concrete witness for C2: a registered chain "c1" whose state vector
matches the query; the transaction from "c1" to "c1" succeeds and its
record is in the global index and both pools. -/
theorem ProcessTransaction_success_stores_witness :
    ∃ a', ProcessTransaction ⟨[("c1", chainC1)], ⟨[("c1", zeroVec)], [], []⟩⟩
        ⟨"tx1", "c1", "c1", [], zeroVec, -1⟩ = some (Except.ok (), a') ∧
      (recordStored a'.vectorIndex (txRecord ⟨"tx1", "c1", "c1", [], zeroVec, -1⟩) ∧
        (∃ fc, mapLookup "c1" a'.chains = some fc ∧
          recordStored fc.TransactionPool (txRecord ⟨"tx1", "c1", "c1", [], zeroVec, -1⟩)) ∧
        (∃ tc, mapLookup "c1" a'.chains = some tc ∧
          recordStored tc.TransactionPool (txRecord ⟨"tx1", "c1", "c1", [], zeroVec, -1⟩))) :=
  ⟨⟨insertIntoPool (insertIntoPool [("c1", chainC1)] "c1"
        (txRecord ⟨"tx1", "c1", "c1", [], zeroVec, -1⟩)) "c1"
        (txRecord ⟨"tx1", "c1", "c1", [], zeroVec, -1⟩),
      Insert ⟨[("c1", zeroVec)], [], []⟩ (txRecord ⟨"tx1", "c1", "c1", [], zeroVec, -1⟩)⟩,
    ProcessTransaction_success_run,
    ProcessTransaction_success_stores ⟨[("c1", chainC1)], ⟨[("c1", zeroVec)], [], []⟩⟩
      ⟨"tx1", "c1", "c1", [], zeroVec, -1⟩ _ ProcessTransaction_success_run⟩

end Hydap

namespace Hydap

/-- Embeds Go `ChainProtocol` (static per-protocol configuration). -/
structure ChainProtocol where
  ID : String
  BlockTime : ℝ
  ConfirmationTime : ℝ
  TPS : ℝ
  Finality : ℝ
  CostWeight : ℝ

/-- Embeds Go `determineProtocol`: chain-id to protocol tag, defaulting
to "unknown". -/
def determineProtocol (chainID : String) : String :=
  if chainID = "bitcoin" then "btc"
  else if chainID = "btc" then "btc"
  else if chainID = "ethereum" then "eth"
  else if chainID = "eth" then "eth"
  else if chainID = "solana" then "sol"
  else if chainID = "sol" then "sol"
  else if chainID = "polkadot" then "dot"
  else if chainID = "dot" then "dot"
  else "unknown"

/-- Embeds Go `getProtocolConfig` over the static `protocolConfigs`
table (Bitcoin, Ethereum, Solana, Polkadot reference values). -/
noncomputable def getProtocolConfig (protocol : String) : Option ChainProtocol :=
  if protocol = "btc" then some ⟨"btc", 600, 3600, 7, 3600, 1⟩
  else if protocol = "eth" then some ⟨"eth", 12, 180, 15, 180, 0.8⟩
  else if protocol = "sol" then some ⟨"sol", 0.4, 2, 65000, 2, 0.1⟩
  else if protocol = "dot" then some ⟨"dot", 6, 30, 1000, 30, 0.5⟩
  else none

/-- Embeds Go `RouteMetrics`. -/
structure RouteMetrics where
  Speed : ℝ
  Finality : ℝ
  Cost : ℝ
  Similarity : ℝ

/-- Embeds Go `calculateRouteMetrics`: an unknown protocol returns the
zero `RouteMetrics` before any similarity computation; a known protocol
computes `speed = ln(1+TPS)/blockTime`, `finality = 1/finalityTime`,
`cost = 1 - costWeight` and the 50-dimension similarity between the
chain's and the transaction's state vectors (`none` models a panic in
the similarity computation). -/
noncomputable def calculateRouteMetrics (chain : Chain) (tx : Transaction) :
    Option RouteMetrics :=
  match getProtocolConfig (determineProtocol chain.ID) with
  | none => some ⟨0, 0, 0, 0⟩
  | some config =>
    match ComputeVectorSimilarity chain.StateVector tx.StateVector 50 with
    | none => none
    | some similarity =>
      some ⟨Real.log (1 + config.TPS) / config.BlockTime, 1 / config.Finality,
        1 - config.CostWeight, similarity⟩

/-- Embeds Go `evaluateRoute`: the fixed weighted sum
`speed*0.3 + finality*0.25 + cost*0.2 + similarity*0.25`. -/
noncomputable def evaluateRoute (metrics : RouteMetrics) : ℝ :=
  metrics.Speed * 0.3 + metrics.Finality * 0.25 + metrics.Cost * 0.2
    + metrics.Similarity * 0.25

open Classical in
/-- The selection loop of Go `findOptimalRoute`: `bestScore` starts at
the zero value `0`, and a candidate replaces the best route only when
its score is strictly greater (`score > bestScore`), so ties keep the
earlier candidate and a best route is only ever a single chain. -/
noncomputable def findOptimalRouteLoop (tx : Transaction) :
    List Chain → List Chain → ℝ → Option (List Chain)
  | [], bestRoute, _ => some bestRoute
  | chain :: rest, bestRoute, bestScore =>
    match calculateRouteMetrics chain tx with
    | none => none
    | some metrics =>
      let score := evaluateRoute metrics
      if bestScore < score then findOptimalRouteLoop tx rest [chain] score
      else findOptimalRouteLoop tx rest bestRoute bestScore

/-- Embeds Go `findOptimalRoute`. -/
noncomputable def findOptimalRoute (chains : List Chain) (tx : Transaction) :
    Option (List Chain) :=
  findOptimalRouteLoop tx chains [] 0

/-- The route score of one candidate (metrics fed to `evaluateRoute`). -/
noncomputable def routeScore (tx : Transaction) (chain : Chain) : Option ℝ :=
  (calculateRouteMetrics chain tx).map evaluateRoute

end Hydap

namespace Hydap

/-- Chain with an id outside the protocol table ("unknown" protocol),
used by the C6 counterexample and witness. -/
def chainX : Chain := ⟨"x-chain", "endpointB", "unknown", zeroVec, ⟨[], [], []⟩⟩

theorem calculateRouteMetrics_chainX (tx : Transaction) :
    calculateRouteMetrics chainX tx = some ⟨0, 0, 0, 0⟩ := by
  have hdp : determineProtocol "x-chain" = "unknown" := by decide
  have h1 : getProtocolConfig (determineProtocol chainX.ID) = none := by
    rw [show chainX.ID = "x-chain" from rfl, hdp]
    simp [getProtocolConfig]
  simp only [calculateRouteMetrics, h1]

/-- C6 counterexample: for a non-empty candidate list whose only chain
has an unknown protocol, every metric is zero, the score `0` is not
strictly greater than the initial `bestScore = 0`, and
`findOptimalRoute` returns no chain at all — not "exactly one". -/
theorem findOptimalRoute_unknown_protocol_empty :
    findOptimalRoute [chainX] ⟨"tx1", "c1", "c1", [], zeroVec, -1⟩ = some [] ∧
    ¬ ∃ c, findOptimalRoute [chainX] ⟨"tx1", "c1", "c1", [], zeroVec, -1⟩ = some [c] := by
  have hres : findOptimalRoute [chainX] ⟨"tx1", "c1", "c1", [], zeroVec, -1⟩ = some [] := by
    unfold findOptimalRoute
    have hev : evaluateRoute ⟨0, 0, 0, 0⟩ = 0 := by norm_num [evaluateRoute]
    simp only [findOptimalRouteLoop, calculateRouteMetrics_chainX, hev]
    rw [if_neg (lt_irrefl (0 : ℝ))]
  refine ⟨hres, ?_⟩
  rintro ⟨c, hc⟩
  rw [hres] at hc
  exact List.noConfusion (Option.some.inj hc)

open Classical in
/-- Specification-side restatement of the `findOptimalRoute` loop over a
given score function, used to characterise the selection behaviour. -/
noncomputable def selectBest (s : Chain → ℝ) : List Chain → List Chain → ℝ → List Chain
  | [], bestRoute, _ => bestRoute
  | chain :: rest, bestRoute, bestScore =>
    if bestScore < s chain then selectBest s rest [chain] (s chain)
    else selectBest s rest bestRoute bestScore

theorem findOptimalRouteLoop_eq_selectBest (tx : Transaction) (s : Chain → ℝ) :
    ∀ (rest best : List Chain) (b : ℝ),
      (∀ c ∈ rest, routeScore tx c = some (s c)) →
      findOptimalRouteLoop tx rest best b = some (selectBest s rest best b) := by
  intro rest
  induction rest with
  | nil => intro best b _; simp [findOptimalRouteLoop, selectBest]
  | cons c rest ih =>
    intro best b hs
    have hc := hs c (List.mem_cons_self ..)
    cases hm : calculateRouteMetrics c tx with
    | none => rw [routeScore, hm] at hc; exact absurd hc (by simp)
    | some m =>
      have hsc : evaluateRoute m = s c := by
        rw [routeScore, hm] at hc
        exact Option.some.inj (by simpa using hc)
      simp only [findOptimalRouteLoop, hm, selectBest]
      rw [hsc]
      by_cases hlt : b < s c
      · rw [if_pos hlt, if_pos hlt]
        exact ih _ _ (fun c' hc' => hs c' (List.mem_cons_of_mem _ hc'))
      · rw [if_neg hlt, if_neg hlt]
        exact ih _ _ (fun c' hc' => hs c' (List.mem_cons_of_mem _ hc'))

theorem selectBest_spec (s : Chain → ℝ) :
    ∀ (rest best : List Chain) (b : ℝ),
      ((∀ c ∈ rest, s c ≤ b) → selectBest s rest best b = best) ∧
      (∀ c0 ∈ rest, b < s c0 →
        ∃ c, selectBest s rest best b = [c] ∧ c ∈ rest ∧ b < s c ∧
          (∀ c' ∈ rest, s c' ≤ s c) ∧
          ∃ pre suf, rest = pre ++ c :: suf ∧ ∀ c' ∈ pre, s c' < s c) := by
  intro rest
  induction rest with
  | nil =>
    intro best b
    constructor
    · intro _; simp [selectBest]
    · intro c0 hc0; exact absurd hc0 (List.not_mem_nil c0)
  | cons c rest ih =>
    intro best b
    constructor
    · intro hall
      have hcb : s c ≤ b := hall c (List.mem_cons_self ..)
      have hnlt : ¬ b < s c := not_lt.mpr hcb
      simp only [selectBest, if_neg hnlt]
      exact (ih best b).1 (fun c' h' => hall c' (List.mem_cons_of_mem _ h'))
    · intro c0 hc0 hb
      by_cases hlt : b < s c
      · simp only [selectBest, if_pos hlt]
        by_cases hallrest : ∀ c' ∈ rest, s c' ≤ s c
        · have heq := (ih [c] (s c)).1 hallrest
          refine ⟨c, heq, List.mem_cons_self .., hlt, ?_, [], rest, rfl, ?_⟩
          · intro c' hc'
            rcases List.mem_cons.mp hc' with h | h
            · exact le_of_eq (congrArg s h)
            · exact hallrest c' h
          · intro c' hc'; exact absurd hc' (List.not_mem_nil c')
        · push_neg at hallrest
          obtain ⟨c1, hc1, hgt⟩ := hallrest
          obtain ⟨c2, hres, hc2mem, hlt2, hmax2, pre, suf, hdecomp, hpre⟩ :=
            (ih [c] (s c)).2 c1 hc1 hgt
          refine ⟨c2, hres, List.mem_cons_of_mem _ hc2mem, lt_trans hlt hlt2, ?_,
            c :: pre, suf, by rw [List.cons_append, ← hdecomp], ?_⟩
          · intro c' hc'
            rcases List.mem_cons.mp hc' with h | h
            · rw [h]; exact le_of_lt hlt2
            · exact hmax2 c' h
          · intro c' hc'
            rcases List.mem_cons.mp hc' with h | h
            · rw [h]; exact hlt2
            · exact hpre c' h
      · simp only [selectBest, if_neg hlt]
        have hc0rest : c0 ∈ rest := by
          rcases List.mem_cons.mp hc0 with h | h
          · exfalso; rw [h] at hb; exact hlt hb
          · exact h
        obtain ⟨c2, hres, hc2mem, hlt2, hmax2, pre, suf, hdecomp, hpre⟩ :=
          (ih best b).2 c0 hc0rest hb
        refine ⟨c2, hres, List.mem_cons_of_mem _ hc2mem, hlt2, ?_,
          c :: pre, suf, by rw [List.cons_append, ← hdecomp], ?_⟩
        · intro c' hc'
          rcases List.mem_cons.mp hc' with h | h
          · rw [h]; exact le_trans (not_lt.mp hlt) (le_of_lt hlt2)
          · exact hmax2 c' h
        · intro c' hc'
          rcases List.mem_cons.mp hc' with h | h
          · rw [h]; exact lt_of_le_of_lt (not_lt.mp hlt) hlt2
          · exact hpre c' h

/-- C6 amended: when every candidate's route metrics are defined,
`findOptimalRoute` returns at most one chain: if some candidate's score
is strictly positive it returns exactly the first-encountered candidate
attaining the highest score (strict-improvement updates resolve ties to
the earliest), and if every candidate scores `≤ 0` (e.g. an unknown
protocol) it returns no chain. -/
theorem findOptimalRoute_selects_first_max (chains : List Chain) (tx : Transaction)
    (s : Chain → ℝ) (hs : ∀ c ∈ chains, routeScore tx c = some (s c)) :
    ((∀ c ∈ chains, s c ≤ 0) → findOptimalRoute chains tx = some []) ∧
    (∀ c0 ∈ chains, 0 < s c0 →
      ∃ c, findOptimalRoute chains tx = some [c] ∧ c ∈ chains ∧ 0 < s c ∧
        (∀ c' ∈ chains, s c' ≤ s c) ∧
        ∃ pre suf, chains = pre ++ c :: suf ∧ ∀ c' ∈ pre, s c' < s c) := by
  have hlink := findOptimalRouteLoop_eq_selectBest tx s chains [] 0 hs
  unfold findOptimalRoute
  rw [hlink]
  constructor
  · intro hall
    rw [(selectBest_spec s chains [] 0).1 hall]
  · intro c0 hc0 hpos
    obtain ⟨c, hres, hmem, hlt, hmax, pre, suf, hdec, hpre⟩ :=
      (selectBest_spec s chains [] 0).2 c0 hc0 hpos
    exact ⟨c, by rw [hres], hmem, hlt, hmax, pre, suf, hdec, hpre⟩

/-- Concrete witness for the amended C6: the single unknown-protocol
candidate scores exactly 0, so the returned route is empty. -/
theorem findOptimalRoute_selects_first_max_witness :
    (∀ c ∈ [chainX], routeScore ⟨"tx1", "c1", "c1", [], zeroVec, -1⟩ c
      = some ((fun _ => (0 : ℝ)) c)) ∧
    (((∀ c ∈ [chainX], (fun _ => (0 : ℝ)) c ≤ 0) →
        findOptimalRoute [chainX] ⟨"tx1", "c1", "c1", [], zeroVec, -1⟩ = some []) ∧
      (∀ c0 ∈ [chainX], 0 < (fun _ => (0 : ℝ)) c0 →
        ∃ c, findOptimalRoute [chainX] ⟨"tx1", "c1", "c1", [], zeroVec, -1⟩ = some [c] ∧
          c ∈ [chainX] ∧ 0 < (fun _ => (0 : ℝ)) c ∧
          (∀ c' ∈ [chainX], (fun _ => (0 : ℝ)) c' ≤ (fun _ => (0 : ℝ)) c) ∧
          ∃ pre suf, [chainX] = pre ++ c :: suf ∧
            ∀ c' ∈ pre, (fun _ => (0 : ℝ)) c' < (fun _ => (0 : ℝ)) c)) := by
  have hs : ∀ c ∈ [chainX], routeScore ⟨"tx1", "c1", "c1", [], zeroVec, -1⟩ c
      = some ((fun _ => (0 : ℝ)) c) := by
    intro c hc
    have hc' := List.mem_singleton.mp hc
    subst hc'
    have hev : evaluateRoute ⟨0, 0, 0, 0⟩ = 0 := by norm_num [evaluateRoute]
    rw [routeScore, calculateRouteMetrics_chainX]
    simp [hev]
  exact ⟨hs, findOptimalRoute_selects_first_max [chainX]
    ⟨"tx1", "c1", "c1", [], zeroVec, -1⟩ (fun _ => (0 : ℝ)) hs⟩

end Hydap

namespace Hydap

/-- Embeds Go `PeerInfo` (`LastSeen` timestamps are opaque ticks). -/
structure PeerInfo where
  NodeID : String
  Address : String
  LastSeen : ℕ
  Reputation : ℝ

/-- Embeds Go `DataTransferMessage` restricted to the fields `StoreData`
fills that the claims observe (`VectorHash`, serialized `Payload` bytes
and `Timestamp` are opaque and omitted). -/
structure DataTransferMessage where
  SenderID : String
  RecipientID : String
  DataID : String

/-- Embeds Go `InfiniteVectorDatabase`. -/
structure InfiniteVectorDatabase where
  records : List (String × DatabaseRecord)
  indexSpace : InfiniteVectorIndex

/-- Embeds Go `P2PInfiniteVectorNode` (channels are modelled by
returning the emitted messages; the reputation manager and channel
fields not read by the modelled operations are omitted). -/
structure P2PInfiniteVectorNode where
  NodeID : String
  Address : String
  Port : ℤ
  localDatabase : InfiniteVectorDatabase
  peers : List (String × PeerInfo)
  routingVector : InfiniteVector

/-- Embeds Go `computePeerSimilarity`: the average of
`1 - |peerReputation - routingVector.GetElement(i)|` over the first 10
dimensions; `none` models the panic when a routing-vector element needs
a nil generator. -/
noncomputable def computePeerSimilarity (node : P2PInfiniteVectorNode) (peer : PeerInfo) :
    Option ℝ :=
  if (List.range 10).all (fun i => (elementAt node.routingVector i).isSome) then
    some ((∑ i in Finset.range 10,
      (1 - |peer.Reputation - elemD node.routingVector i|)) / 10)
  else none

/-- Defaulted peer similarity, used by the sort comparator once
availability is established. -/
noncomputable def peerSimD (node : P2PInfiniteVectorNode) (peer : PeerInfo) : ℝ :=
  (computePeerSimilarity node peer).getD 0

open Classical in
/-- Embeds Go `selectReplicationPeers`: collect the peers, sort them by
similarity to the routing vector in descending order (Go uses the
unstable `sort.Slice`, so tie order is unspecified; a merge sort is one
admissible order), and take the top `count` peers, capped at the number
of peers. -/
noncomputable def selectReplicationPeers (node : P2PInfiniteVectorNode) (count : ℕ) :
    Option (List PeerInfo) :=
  let peerList := node.peers.map Prod.snd
  if peerList.all (fun p => (computePeerSimilarity node p).isSome) then
    some ((peerList.mergeSort
      (fun p q => decide (peerSimD node q ≤ peerSimD node p))).take
        (min count peerList.length))
  else none

/-- Embeds Go `StoreData`: select `3` replication peers (the fixed
replication factor), emit one data-transfer message per selected peer
carrying the record's id, then store the record in the local database
under `record.ID`.  The emitted messages model the sends on
`dataChannel`. -/
noncomputable def StoreData (node : P2PInfiniteVectorNode) (record : DatabaseRecord) :
    Option (List DataTransferMessage × P2PInfiniteVectorNode) :=
  match selectReplicationPeers node 3 with
  | none => none
  | some selectedPeers =>
    some (selectedPeers.map fun peer => ⟨node.NodeID, peer.NodeID, record.ID⟩,
      { node with localDatabase :=
          { node.localDatabase with
            records := mapUpdate record.ID record node.localDatabase.records } })

theorem selectReplicationPeers_length {node : P2PInfiniteVectorNode} {count : ℕ}
    {sel : List PeerInfo} (h : selectReplicationPeers node count = some sel) :
    sel.length = min count node.peers.length := by
  unfold selectReplicationPeers at h
  by_cases hall : (node.peers.map Prod.snd).all
      (fun p => (computePeerSimilarity node p).isSome) = true
  · rw [if_pos hall] at h
    have hsel := (Option.some.inj h).symm
    rw [hsel]
    rw [List.length_take, List.length_mergeSort, List.length_map]
    omega
  · rw [if_neg hall] at h
    exact absurd h (by simp)

/-- C7: whenever `StoreData` completes on a node with `k` connected
peers, it emits exactly `min(3, k)` replication messages, one per
selected peer, each carrying the record's id and sent by this node; and
afterwards the record is stored in the node's local database under
`record.ID`, regardless of the replication outcome. -/
theorem StoreData_replication_count (node : P2PInfiniteVectorNode)
    (record : DatabaseRecord) (msgs : List DataTransferMessage)
    (node' : P2PInfiniteVectorNode)
    (h : StoreData node record = some (msgs, node')) :
    msgs.length = min 3 node.peers.length ∧
    (∀ m ∈ msgs, m.DataID = record.ID ∧ m.SenderID = node.NodeID) ∧
    (∃ sel, selectReplicationPeers node 3 = some sel ∧
      msgs = sel.map fun peer => ⟨node.NodeID, peer.NodeID, record.ID⟩) ∧
    mapLookup record.ID node'.localDatabase.records = some record := by
  unfold StoreData at h
  cases hsel : selectReplicationPeers node 3 with
  | none => rw [hsel] at h; exact absurd h (by simp)
  | some sel =>
    rw [hsel] at h
    simp only at h
    have hm := congrArg Prod.fst (Option.some.inj h)
    have hn := congrArg Prod.snd (Option.some.inj h)
    simp only at hm hn
    refine ⟨?_, ?_, ⟨sel, rfl, hm.symm⟩, ?_⟩
    · rw [← hm, List.length_map]
      exact selectReplicationPeers_length hsel
    · intro m hmem
      rw [← hm] at hmem
      obtain ⟨peer, -, hpeer⟩ := List.mem_map.mp hmem
      rw [← hpeer]
      exact ⟨rfl, rfl⟩
    · rw [← hn]
      exact mapLookup_mapUpdate_self ..

/-- Concrete witness for C7: a node with zero connected peers emits
`min(3, 0) = 0` messages and still stores the record locally. -/
theorem StoreData_replication_count_witness :
    StoreData ⟨"n1", "addr", 0, ⟨[], ⟨[], [], []⟩⟩, [], zeroVec⟩ ⟨"r1", [], zeroVec⟩
      = some ([], ⟨"n1", "addr", 0, ⟨[("r1", ⟨"r1", [], zeroVec⟩)], ⟨[], [], []⟩⟩, [], zeroVec⟩) ∧
    (([] : List DataTransferMessage).length
        = min 3 ([] : List (String × PeerInfo)).length ∧
      (∀ m ∈ ([] : List DataTransferMessage), m.DataID = "r1" ∧ m.SenderID = "n1") ∧
      (∃ sel, selectReplicationPeers ⟨"n1", "addr", 0, ⟨[], ⟨[], [], []⟩⟩, [], zeroVec⟩ 3
          = some sel ∧
        ([] : List DataTransferMessage)
          = sel.map fun peer => ⟨"n1", peer.NodeID, "r1"⟩) ∧
      mapLookup "r1" (⟨"n1", "addr", 0, ⟨[("r1", ⟨"r1", [], zeroVec⟩)], ⟨[], [], []⟩⟩, [],
          zeroVec⟩ : P2PInfiniteVectorNode).localDatabase.records
        = some ⟨"r1", [], zeroVec⟩) := by
  have hsel : selectReplicationPeers ⟨"n1", "addr", 0, ⟨[], ⟨[], [], []⟩⟩, [], zeroVec⟩ 3
      = some [] := by
    unfold selectReplicationPeers
    simp
  have hrun : StoreData ⟨"n1", "addr", 0, ⟨[], ⟨[], [], []⟩⟩, [], zeroVec⟩ ⟨"r1", [], zeroVec⟩
      = some ([], ⟨"n1", "addr", 0, ⟨[("r1", ⟨"r1", [], zeroVec⟩)], ⟨[], [], []⟩⟩, [],
          zeroVec⟩) := by
    unfold StoreData
    rw [hsel]
    simp [mapUpdate]
  exact ⟨hrun,
    StoreData_replication_count ⟨"n1", "addr", 0, ⟨[], ⟨[], [], []⟩⟩, [], zeroVec⟩
      ⟨"r1", [], zeroVec⟩ []
      ⟨"n1", "addr", 0, ⟨[("r1", ⟨"r1", [], zeroVec⟩)], ⟨[], [], []⟩⟩, [], zeroVec⟩ hrun⟩

end Hydap
